import Mathlib

/-!
Verification development for the obsidian-calendar event-aggregation core
(`src/types.ts` `DateUtils`, `src/utils.ts` `CalendarCore`).

Modelling conventions:
* A JavaScript `Date` is its millisecond timestamp, an `Int`.  The host
  timezone is a fixed offset: all `CalendarCore` logic uses only local
  components, comparisons and differences, which are invariant under the
  uniform shift between UTC and local time, so `CalendarCore` dates are
  modelled directly as *local* milliseconds (local midnight of a calendar
  day is `dayNumber * msPerDay`).  The offset appears explicitly only in
  the `...Z`-suffixed functions used for the timezone-independence claim.
* The engine's timestamp/calendar conversions (`getFullYear`, `Date.UTC`,
  rollover in `setMonth`) are modelled by the standard civil-calendar
  algorithms `daysFromCivil` / `civilFromDays` (proleptic Gregorian),
  which is what ECMA-262 `MakeDay`/`YearFromTime` compute.
* `new Date(str + 'T00:00:00')` is modelled on the ISO `YYYY-MM-DD` date
  grammar; a string outside that grammar yields an invalid date, modelled
  as `none`.
-/

/-- Milliseconds in a civil day. -/
def msPerDay : Int := 86400000

/-- Gregorian leap-year rule. -/
def isLeapYear (y : Int) : Bool :=
  (y % 4 == 0 && y % 100 != 0) || (y % 400 == 0)

/-- Number of days in month `m` (1-12) of year `y`. -/
def daysInMonth (y m : Int) : Int :=
  if m = 2 then (if isLeapYear y then 29 else 28)
  else if m = 4 ∨ m = 6 ∨ m = 9 ∨ m = 11 then 30
  else 31

/-- Day number (days since 1970-01-01) of the civil date `y-m-d`,
`m` in 1..12.  The formula is linear in `d`, so out-of-range day values
roll over exactly as the ECMAScript `MakeDay` computation does. -/
def daysFromCivil (y m d : Int) : Int :=
  let y' := if m ≤ 2 then y - 1 else y
  let era := y' / 400
  let yoe := y' - era * 400
  let mp := (m + 9) % 12
  let doy := (153 * mp + 2) / 5 + d - 1
  let doe := yoe * 365 + yoe / 4 - yoe / 100 + doy
  era * 146097 + doe - 719468

/-- Civil date `(y, m, d)` of a day number (inverse of `daysFromCivil`). -/
def civilFromDays (z : Int) : Int × Int × Int :=
  let z' := z + 719468
  let era := z' / 146097
  let doe := z' - era * 146097
  let yoe := (doe - doe / 1460 + doe / 36524 - doe / 146096) / 365
  let doy := doe - (365 * yoe + yoe / 4 - yoe / 100)
  let mp := (5 * doy + 2) / 153
  let d := doy - (153 * mp + 2) / 5 + 1
  let m := mp + (if mp < 10 then 3 else -9)
  (yoe + era * 400 + (if m ≤ 2 then 1 else 0), m, d)

/-- `date.getDay()`: weekday 0=Sunday..6=Saturday (1970-01-01 was a
Thursday, weekday 4). -/
def jsGetDay (t : Int) : Int := (t / msPerDay + 4) % 7

/-- Timestamp of `new Date(y, monthIndex, d)` (local midnight), with the
ECMAScript normalization: the month index is reduced mod 12 into the
year, and day-of-month overflow rolls over into following months. -/
def mkLocalDate (y mIdx d : Int) : Int :=
  daysFromCivil (y + mIdx / 12) (mIdx % 12 + 1) d * msPerDay

namespace DateUtils

/-- `DateUtils.addDays`: `setDate(getDate() + n)` adds exactly `n` civil
days (fixed-offset timezone model). -/
def addDays (t n : Int) : Int := t + n * msPerDay

/-- `DateUtils.addMonths`: `setMonth(getMonth() + n)` keeps the local
time-of-day and day-of-month, rolling over when the day does not exist
in the target month. -/
def addMonths (t n : Int) : Int :=
  let dayN := t / msPerDay
  let tod := t % msPerDay
  let c := civilFromDays dayN
  mkLocalDate c.1 (c.2.1 - 1 + n) c.2.2 + tod

/-- `String(n).padStart(2, '0')` for the month/day components. -/
def pad2 (n : Int) : String :=
  let s := toString n
  if s.length < 2 then "0" ++ s else s

/-- `DateUtils.toDateString`: builds `${year}-${month}-${day}` from the
*local* year/month/day components; the year is `String(year)`,
unpadded. -/
def toDateString (t : Int) : String :=
  let c := civilFromDays (t / msPerDay)
  toString c.1 ++ "-" ++ pad2 c.2.1 ++ "-" ++ pad2 c.2.2

/-- Numeric value of a decimal digit character. -/
def digitVal (c : Char) : Int := (c.toNat : Int) - 48

/-- The ISO `YYYY-MM-DD` date grammar used by
`new Date(s + 'T00:00:00')`: fixed-width four-digit year, two-digit
month 01-12, two-digit day within the month's length.  Returns the
parsed components, or `none` for an invalid date. -/
def parseDateTriple (s : String) : Option (Int × Int × Int) :=
  match s.data with
  | [y3, y2, y1, y0, dash1, m1, m0, dash2, d1, d0] =>
    if dash1 = '-' ∧ dash2 = '-' ∧ y3.isDigit ∧ y2.isDigit ∧ y1.isDigit ∧
        y0.isDigit ∧ m1.isDigit ∧ m0.isDigit ∧ d1.isDigit ∧ d0.isDigit then
      if 1 ≤ 10 * digitVal m1 + digitVal m0 ∧ 10 * digitVal m1 + digitVal m0 ≤ 12 ∧
          1 ≤ 10 * digitVal d1 + digitVal d0 ∧
          10 * digitVal d1 + digitVal d0 ≤
            daysInMonth (1000 * digitVal y3 + 100 * digitVal y2 + 10 * digitVal y1 + digitVal y0)
              (10 * digitVal m1 + digitVal m0) then
        some (1000 * digitVal y3 + 100 * digitVal y2 + 10 * digitVal y1 + digitVal y0,
          10 * digitVal m1 + digitVal m0, 10 * digitVal d1 + digitVal d0)
      else none
    else none
  | _ => none

/-- `DateUtils.fromDateString` in the local-milliseconds model:
`new Date(dateStr + 'T00:00:00')` is local midnight of the parsed
calendar day; an invalid date is `none`. -/
def fromDateString (s : String) : Option Int :=
  (parseDateTriple s).map fun ymd => daysFromCivil ymd.1 ymd.2.1 ymd.2.2 * msPerDay

/-- `DateUtils.fromDateString` with the host timezone offset `tz`
(milliseconds east of UTC) explicit: the returned UTC timestamp is local
midnight, i.e. `dayNumber * msPerDay - tz`. -/
def fromDateStringZ (tz : Int) (s : String) : Option Int :=
  (parseDateTriple s).map fun ymd => daysFromCivil ymd.1 ymd.2.1 ymd.2.2 * msPerDay - tz

/-- `DateUtils.toDateString` with the host timezone offset `tz` explicit:
the local components of a UTC timestamp `t` are the civil components of
`t + tz`. -/
def toDateStringZ (tz : Int) (t : Int) : String :=
  let c := civilFromDays ((t + tz) / msPerDay)
  toString c.1 ++ "-" ++ pad2 c.2.1 ++ "-" ++ pad2 c.2.2

end DateUtils

example : daysFromCivil 1970 1 1 = 0 := by decide
example : daysFromCivil 2024 1 1 = 19723 := by decide
example : civilFromDays 19723 = (2024, 1, 1) := by decide
example : civilFromDays (-1) = (1969, 12, 31) := by decide
example : daysFromCivil 2000 3 1 = daysFromCivil 2000 2 30 := by decide
example : jsGetDay (daysFromCivil 2025 1 6 * msPerDay) = 1 := by decide
example : DateUtils.toDateString (daysFromCivil 2025 1 6 * msPerDay) = "2025-01-06" := by decide
example : DateUtils.fromDateString "2025-01-06" = some (20094 * msPerDay) := by decide
example : DateUtils.fromDateString "2025-02-29" = none := by decide
example : DateUtils.fromDateString "2024-02-29" ≠ none := by decide
example : DateUtils.addMonths (daysFromCivil 2025 1 31 * msPerDay) 1 =
    daysFromCivil 2025 3 3 * msPerDay := by decide
example : DateUtils.toDateString (daysFromCivil 999 1 1 * msPerDay) = "999-01-01" := by decide

set_option maxHeartbeats 1000000

/-- Key inversion step: recovering the year-of-era from the day-of-era.
The three division terms are characterized exactly, with the leap-year
side condition on `doy` as the only nontrivial constraint. -/
theorem civilFromDays_eq (era yoe doy doe : Int)
    (h1 : 0 ≤ yoe) (h2 : yoe ≤ 399) (h3 : 0 ≤ doy)
    (h4 : doy ≤ 364 ∨ (doy = 365 ∧ (4 ∣ (yoe+1)) ∧ (¬ (100 ∣ (yoe+1)) ∨ yoe = 399)))
    (hdoe : doe = yoe * 365 + yoe / 4 - yoe / 100 + doy) :
    civilFromDays (era * 146097 + doe - 719468) =
      (yoe + era * 400 +
        (if (5 * doy + 2) / 153 + (if (5 * doy + 2) / 153 < 10 then 3 else -9) ≤ 2 then 1 else 0),
       (5 * doy + 2) / 153 + (if (5 * doy + 2) / 153 < 10 then 3 else -9),
       doy - (153 * ((5 * doy + 2) / 153) + 2) / 5 + 1) := by
  have h1460 : doe / 1460 = yoe / 4 + (if 365 * (yoe % 4) + yoe / 4 - yoe / 100 + doy < 1460 then 0 else 1) := by
    split <;> omega
  have h36524 : doe / 36524 = yoe / 100 + (if yoe % 100 = 99 ∧ doy = 365 then 1 else 0) := by
    split <;> omega
  have h146096 : doe / 146096 = (if yoe = 399 ∧ doy = 365 then 1 else 0) := by
    split <;> omega
  have hyoe : (doe - doe / 1460 + doe / 36524 - doe / 146096) / 365 = yoe := by
    rw [h1460, h36524, h146096]; split_ifs <;> omega
  simp only [civilFromDays]
  have hz : era * 146097 + doe - 719468 + 719468 = era * 146097 + doe := by ring
  rw [hz]
  have hera : (era * 146097 + doe) / 146097 = era := by omega
  rw [hera]
  have hd2 : era * 146097 + doe - era * 146097 = doe := by ring
  rw [hd2, hyoe]
  have hdoy : doe - (365 * yoe + yoe / 4 - yoe / 100) = doy := by omega
  rw [hdoy]

/-- Inversion for months March..December (shifted month index 0..9). -/
theorem civil_inv_high (y mp d : Int)
    (hmp1 : 0 ≤ mp) (hmp2 : mp ≤ 9) (hd1 : 1 ≤ d)
    (hd2 : d ≤ (153 * (mp + 1) + 2) / 5 - (153 * mp + 2) / 5) :
    civilFromDays (y / 400 * 146097 +
      ((y - y / 400 * 400) * 365 + (y - y / 400 * 400) / 4 - (y - y / 400 * 400) / 100
        + ((153 * mp + 2) / 5 + d - 1)) - 719468) = (y, mp + 3, d) := by
  rw [civilFromDays_eq _ _ _ _ (by omega) (by omega) (by omega) (by left; omega) rfl]
  have hrec : (5 * ((153 * mp + 2) / 5 + d - 1) + 2) / 153 = mp := by omega
  rw [hrec]
  simp only [Prod.mk.injEq]
  refine ⟨?_, ?_, ?_⟩ <;> first | (split_ifs <;> omega) | omega

/-- Inversion for January/February (shifted month index 10..11, with the
year shifted down by one). -/
theorem civil_inv_low (y mp d : Int)
    (hmp1 : 10 ≤ mp) (hmp2 : mp ≤ 11) (hd1 : 1 ≤ d)
    (hd2 : d ≤ (153 * (mp + 1) + 2) / 5 - (153 * mp + 2) / 5)
    (hd29 : mp = 11 → d ≤ 29)
    (hfeb : mp = 11 → d = 29 →
       (4 ∣ (y - 1 - (y-1) / 400 * 400 + 1)) ∧
       (¬ (100 ∣ (y - 1 - (y-1) / 400 * 400 + 1)) ∨ y - 1 - (y-1) / 400 * 400 = 399)) :
    civilFromDays ((y-1) / 400 * 146097 +
      ((y - 1 - (y-1) / 400 * 400) * 365 + (y - 1 - (y-1) / 400 * 400) / 4
        - (y - 1 - (y-1) / 400 * 400) / 100
        + ((153 * mp + 2) / 5 + d - 1)) - 719468) = (y, mp - 9, d) := by
  have h4 : (153 * mp + 2) / 5 + d - 1 ≤ 364 ∨
      ((153 * mp + 2) / 5 + d - 1 = 365 ∧ (4 ∣ (y - 1 - (y-1) / 400 * 400 + 1)) ∧
        (¬ (100 ∣ (y - 1 - (y-1) / 400 * 400 + 1)) ∨ y - 1 - (y-1) / 400 * 400 = 399)) := by
    by_cases hc : mp = 11 ∧ d = 29
    · right
      exact ⟨by omega, hfeb hc.1 hc.2⟩
    · left
      rcases eq_or_ne mp 11 with h | h
      · have := hd29 h; omega
      · omega
  rw [civilFromDays_eq _ _ _ _ (by omega) (by omega) (by omega) h4 rfl]
  have hrec : (5 * ((153 * mp + 2) / 5 + d - 1) + 2) / 153 = mp := by omega
  rw [hrec]
  simp only [Prod.mk.injEq]
  refine ⟨?_, ?_, ?_⟩ <;> first | (split_ifs <;> omega) | omega

/-- Arithmetic reading of the leap-year predicate. -/
theorem isLeapYear_iff (y : Int) :
    isLeapYear y = true ↔ ((y % 4 = 0 ∧ y % 100 ≠ 0) ∨ y % 400 = 0) := by
  simp [isLeapYear]

/-- The calendar conversions are mutually inverse on valid civil dates. -/
theorem civil_roundtrip (y m d : Int) (hm1 : 1 ≤ m) (hm2 : m ≤ 12)
    (hd1 : 1 ≤ d) (hd2 : d ≤ daysInMonth y m) :
    civilFromDays (daysFromCivil y m d) = (y, m, d) := by
  simp only [daysInMonth] at hd2
  by_cases hm : m ≤ 2
  · have harg : daysFromCivil y m d =
        (y-1) / 400 * 146097 +
          ((y - 1 - (y-1) / 400 * 400) * 365 + (y - 1 - (y-1) / 400 * 400) / 4
            - (y - 1 - (y-1) / 400 * 400) / 100 + ((153 * ((m + 9) % 12) + 2) / 5 + d - 1))
          - 719468 := by
      simp only [daysFromCivil]
      rw [if_pos hm]
    have hd2' : d ≤ (153 * ((m + 9) % 12 + 1) + 2) / 5 - (153 * ((m + 9) % 12) + 2) / 5 := by
      interval_cases m <;> split_ifs at hd2 <;> omega
    have hd29 : (m + 9) % 12 = 11 → d ≤ 29 := by
      intro h
      have hmval : m = 2 := by omega
      subst hmval
      norm_num at hd2
      split_ifs at hd2 <;> omega
    have hfeb : (m + 9) % 12 = 11 → d = 29 →
        (4 ∣ (y - 1 - (y-1) / 400 * 400 + 1)) ∧
        (¬ (100 ∣ (y - 1 - (y-1) / 400 * 400 + 1)) ∨ y - 1 - (y-1) / 400 * 400 = 399) := by
      intro h h29
      have hmval : m = 2 := by omega
      subst hmval
      norm_num at hd2
      split_ifs at hd2 with hlp
      · have hyP := (isLeapYear_iff y).mp hlp
        constructor
        · omega
        · omega
      · omega
    rw [harg, civil_inv_low y ((m + 9) % 12) d (by omega) (by omega) hd1 hd2' hd29 hfeb]
    simp only [Prod.mk.injEq]
    exact ⟨trivial, by omega, trivial⟩
  · have harg : daysFromCivil y m d =
        y / 400 * 146097 +
          ((y - y / 400 * 400) * 365 + (y - y / 400 * 400) / 4
            - (y - y / 400 * 400) / 100 + ((153 * ((m + 9) % 12) + 2) / 5 + d - 1))
          - 719468 := by
      simp only [daysFromCivil]
      rw [if_neg hm]
    have hd2' : d ≤ (153 * ((m + 9) % 12 + 1) + 2) / 5 - (153 * ((m + 9) % 12) + 2) / 5 := by
      interval_cases m <;> split_ifs at hd2 <;> omega
    rw [harg, civil_inv_high y ((m + 9) % 12) d (by omega) (by omega) hd1 hd2']
    simp only [Prod.mk.injEq]
    exact ⟨trivial, by omega, trivial⟩

/-- One unfolding step of the core numeral printer. -/
theorem tdc_step (f n : Nat) (ds : List Char) :
    Nat.toDigitsCore 10 (f + 1) n ds =
      if n / 10 = 0 then Nat.digitChar (n % 10) :: ds
      else Nat.toDigitsCore 10 f (n / 10) (Nat.digitChar (n % 10) :: ds) := by
  simp [Nat.toDigitsCore]

/-- The core numeral printer ignores its fuel argument as long as the fuel
exceeds the number being printed. -/
theorem tdc_fuel (f1 : Nat) : ∀ (f2 n : Nat) (ds : List Char), n < f1 → n < f2 →
    Nat.toDigitsCore 10 f1 n ds = Nat.toDigitsCore 10 f2 n ds := by
  induction f1 with
  | zero => intro f2 n ds h1 _; omega
  | succ f ih =>
    intro f2 n ds h1 h2
    match f2, h2 with
    | f2' + 1, _ =>
      rw [tdc_step, tdc_step]
      split
      · rfl
      · rename_i hne
        exact ih f2' (n / 10) _ (by omega) (by omega)

/-- Decimal representation of a four-digit number, character by character. -/
theorem repr4_digits (y : Nat) (h1 : 1000 ≤ y) (h2 : y < 10000) :
    (Nat.repr y).data =
      [Nat.digitChar (y / 1000), Nat.digitChar (y / 100 % 10),
       Nat.digitChar (y / 10 % 10), Nat.digitChar (y % 10)] := by
  obtain ⟨yy, rfl⟩ : ∃ yy, y = yy + 1 := ⟨y - 1, by omega⟩
  show (Nat.toDigits 10 (yy + 1)).asString.data = _
  unfold Nat.toDigits
  rw [tdc_step, if_neg (by omega)]
  rw [tdc_fuel (yy + 1) ((yy + 1) / 10 + 1) ((yy + 1) / 10) _ (by omega) (by omega)]
  rw [tdc_step, if_neg (by omega)]
  rw [tdc_fuel ((yy + 1) / 10) ((yy + 1) / 10 / 10 + 1) ((yy + 1) / 10 / 10) _ (by omega) (by omega)]
  rw [tdc_step, if_neg (by omega)]
  rw [tdc_fuel ((yy + 1) / 10 / 10) ((yy + 1) / 10 / 10 / 10 + 1) ((yy + 1) / 10 / 10 / 10) _ (by omega) (by omega)]
  rw [tdc_step, if_pos (by omega)]
  have e1 : (yy + 1) / 10 / 10 / 10 % 10 = (yy + 1) / 1000 := by omega
  have e2 : (yy + 1) / 10 / 10 % 10 = (yy + 1) / 100 % 10 := by omega
  rw [e1, e2]
  simp [List.asString]

/-- Decimal representation of a number below 100, character by character. -/
theorem repr2_digits : ∀ m : Nat, m < 100 → (Nat.repr m).data =
    (if m < 10 then [Nat.digitChar m]
     else [Nat.digitChar (m / 10), Nat.digitChar (m % 10)]) := by decide

/-- A decimal digit character is recovered from its numeric value. -/
theorem digitChar_inv (c : Char) (h : c.isDigit = true) :
    Nat.digitChar (c.toNat - 48) = c := by
  have hb : 48 ≤ c.toNat ∧ c.toNat ≤ 57 := by
    simp [Char.isDigit] at h
    exact ⟨h.1, h.2⟩
  have hk : c.toNat - 48 ≤ 9 := by omega
  apply Char.ext
  apply UInt32.ext
  interval_cases h2 : (c.toNat - 48) <;>
    simp_all [Nat.digitChar, Char.toNat, UInt32.size] <;> omega
-- appended experimentally
theorem isDigit_bounds (c : Char) (h : c.isDigit = true) :
    48 ≤ c.toNat ∧ c.toNat ≤ 57 := by
  simp [Char.isDigit] at h
  exact ⟨h.1, h.2⟩

theorem int_toString_ofNat (n : Nat) : toString ((n : Nat) : Int) = Nat.repr n := rfl

theorem pad2_data (v : Int) (h1 : 0 ≤ v) (h2 : v < 100) :
    (DateUtils.pad2 v).data =
      if v < 10 then ['0', Nat.digitChar v.toNat]
      else [Nat.digitChar (v.toNat / 10), Nat.digitChar (v.toNat % 10)] := by
  obtain ⟨n, rfl⟩ : ∃ n : Nat, v = (n : Int) := ⟨v.toNat, by omega⟩
  simp only [DateUtils.pad2, int_toString_ofNat]
  have hlen : (Nat.repr n).length = (Nat.repr n).data.length := rfl
  rw [repr2_digits n (by omega)] at hlen
  split_ifs with hs hv hv
  · rw [hlen] at hs
    split_ifs at hs with h10
    · simp only [String.data_append, repr2_digits n (by omega), if_pos h10]
      simp
    · simp at hs
  · rw [hlen] at hs
    split_ifs at hs with h10
    · exfalso; apply hv; exact_mod_cast h10
    · simp at hs
  · exfalso
    rw [hlen] at hs
    have h10 : n < 10 := by exact_mod_cast hv
    rw [if_pos h10] at hs
    simp at hs
  · rw [repr2_digits n (by omega), if_neg (by exact_mod_cast hv)]
    simp

/-- The two-character zero-padded field prints exactly the two digit
characters it was parsed from. -/
theorem pad2_eq_chars (v : Int) (c1 c0 : Char)
    (h1 : c1.isDigit = true) (h0 : c0.isDigit = true)
    (hv : v = 10 * DateUtils.digitVal c1 + DateUtils.digitVal c0)
    (hlo : 1 ≤ v) (hhi : v ≤ 31) :
    (DateUtils.pad2 v).data = [c1, c0] := by
  have hb1 := isDigit_bounds c1 h1
  have hb0 := isDigit_bounds c0 h0
  simp only [DateUtils.digitVal] at hv
  rw [pad2_data v (by omega) (by omega)]
  split_ifs with hlt
  · have e1 : c1.toNat - 48 = 0 := by omega
    have e0 : c0.toNat - 48 = v.toNat := by omega
    have hc1 : c1 = '0' := by rw [← digitChar_inv c1 h1, e1]; rfl
    have hc0 : c0 = Nat.digitChar v.toNat := by rw [← digitChar_inv c0 h0, e0]
    rw [hc1, hc0]
  · have e1 : c1.toNat - 48 = v.toNat / 10 := by omega
    have e0 : c0.toNat - 48 = v.toNat % 10 := by omega
    have hc1 : c1 = Nat.digitChar (v.toNat / 10) := by rw [← digitChar_inv c1 h1, e1]
    have hc0 : c0 = Nat.digitChar (v.toNat % 10) := by rw [← digitChar_inv c0 h0, e0]
    rw [hc1, hc0]

/-- The unpadded year field prints exactly the four digit characters it
was parsed from, for years 1000-9999. -/
theorem year_eq_chars (y : Int) (c3 c2 c1 c0 : Char)
    (h3 : c3.isDigit = true) (h2 : c2.isDigit = true)
    (h1 : c1.isDigit = true) (h0 : c0.isDigit = true)
    (hy : y = 1000 * DateUtils.digitVal c3 + 100 * DateUtils.digitVal c2 +
      10 * DateUtils.digitVal c1 + DateUtils.digitVal c0)
    (hlo : 1000 ≤ y) :
    (toString y).data = [c3, c2, c1, c0] := by
  have hb3 := isDigit_bounds c3 h3
  have hb2 := isDigit_bounds c2 h2
  have hb1 := isDigit_bounds c1 h1
  have hb0 := isDigit_bounds c0 h0
  simp only [DateUtils.digitVal] at hy
  obtain ⟨n, rfl⟩ : ∃ n : Nat, y = (n : Int) := ⟨y.toNat, by omega⟩
  rw [int_toString_ofNat, repr4_digits n (by omega) (by omega)]
  have e3 : c3.toNat - 48 = n / 1000 := by omega
  have e2 : c2.toNat - 48 = n / 100 % 10 := by omega
  have e1 : c1.toNat - 48 = n / 10 % 10 := by omega
  have e0 : c0.toNat - 48 = n % 10 := by omega
  rw [← digitChar_inv c3 h3, ← digitChar_inv c2 h2, ← digitChar_inv c1 h1,
    ← digitChar_inv c0 h0, e3, e2, e1, e0]

/-- Every month length is at most 31. -/
theorem daysInMonth_le (y m : Int) : daysInMonth y m ≤ 31 := by
  simp only [daysInMonth]
  split_ifs <;> simp

/-- Parse-then-format recovers a valid date string with a four-digit year,
for every host timezone offset. -/
theorem dateString_roundtrip (s : String) (tz y m d : Int)
    (hp : DateUtils.parseDateTriple s = some (y, m, d)) (hy : 1000 ≤ y) :
    (DateUtils.fromDateStringZ tz s).map (DateUtils.toDateStringZ tz) = some s := by
  rw [DateUtils.fromDateStringZ, hp]
  obtain ⟨l⟩ := s
  unfold DateUtils.parseDateTriple at hp
  split at hp
  case h_2 => exact absurd hp (by simp)
  case h_1 c3 c2 c1 c0 dsh1 cm1 cm0 dsh2 cd1 cd0 heq =>
    split_ifs at hp with hdig hrange
    simp only [Option.some.injEq, Prod.mk.injEq] at hp
    obtain ⟨hyv, hmv, hdv⟩ := hp
    obtain ⟨hdsh1, hdsh2, hd3, hd2, hd1, hd0, hm1, hm0, hdd1, hdd0⟩ := hdig
    obtain ⟨hm_lo, hm_hi, hd_lo, hd_hi⟩ := hrange
    subst hyv hmv hdv
    simp only [Option.map_some', Function.comp_apply, Option.some.injEq]
    simp only [DateUtils.toDateStringZ]
    rw [show ∀ a : Int, a * msPerDay - tz + tz = a * msPerDay from fun a => by ring]
    rw [Int.mul_ediv_cancel _ (by norm_num [msPerDay])]
    rw [civil_roundtrip _ _ _ (by omega) (by omega) (by omega) hd_hi]
    apply String.ext
    simp only [String.data_append]
    rw [year_eq_chars _ c3 c2 c1 c0 hd3 hd2 hd1 hd0 rfl hy]
    rw [pad2_eq_chars _ cm1 cm0 hm1 hm0 rfl hm_lo (by omega)]
    have hdim := daysInMonth_le
      (1000 * DateUtils.digitVal c3 + 100 * DateUtils.digitVal c2 +
        10 * DateUtils.digitVal c1 + DateUtils.digitVal c0)
      (10 * DateUtils.digitVal cm1 + DateUtils.digitVal cm0)
    rw [pad2_eq_chars _ cd1 cd0 hdd1 hdd0 rfl hd_lo (by omega)]
    subst hdsh1 hdsh2
    simp only [String.data] at heq
    rw [heq]
    rfl

/-- C1 counterexample: `"0999-01-01"` is a valid calendar date string of
the fixed-width form `YYYY-MM-DD`, but `toDateString` does not pad the
year, so the parse-format round trip returns `"999-01-01"`, not the
original string.  The claim as stated is therefore false. -/
theorem claim_C1_counterexample :
    DateUtils.parseDateTriple "0999-01-01" = some (999, 1, 1) ∧
    (DateUtils.fromDateStringZ 0 "0999-01-01").map (DateUtils.toDateStringZ 0) =
      some "999-01-01" ∧
    "999-01-01" ≠ "0999-01-01" := by
  refine ⟨by decide, by decide, by decide⟩

/-- C1 (amended): for every valid calendar date string of the fixed-width
form `YYYY-MM-DD` whose year field is at least 1000,
`toDateString (fromDateString s) = s`, for every host timezone offset
`tz` (`fromDateString` parses by appending a local-midnight time
component, `toDateString` rebuilds from local year/month/day
components). -/
theorem claim_C1_roundtrip (s : String) (tz y m d : Int)
    (hp : DateUtils.parseDateTriple s = some (y, m, d)) (hy : 1000 ≤ y) :
    (DateUtils.fromDateStringZ tz s).map (DateUtils.toDateStringZ tz) = some s :=
  dateString_roundtrip s tz y m d hp hy

/-- C1 amended-claim witness at `s = "2025-01-06"`, timezone offset
+05:30. -/
theorem claim_C1_roundtrip_witness :
    (DateUtils.fromDateStringZ 19800000 "2025-01-06").map
      (DateUtils.toDateStringZ 19800000) = some "2025-01-06" :=
  claim_C1_roundtrip "2025-01-06" 19800000 2025 1 6 (by decide) (by decide)

/-! ## Event model (`src/utils.ts` `CalendarCore`, `src/types.ts` `DateUtils.parseTime`) -/

/-- Numeric value of a digit character, as a `Nat`. -/
def dvc (c : Char) : Nat := c.toNat - 48

/-- `\s` for the purposes of `parseTime` and tag splitting. -/
def isSpaceChar (c : Char) : Bool := c.isWhitespace

/-- The optional case-insensitive `AM`/`PM` suffix followed by end of
input. Returns `some none` for no suffix, `some (some true)` for PM,
`some (some false)` for AM, `none` when the input does not match. -/
def parseAmPmTail : List Char → Option (Option Bool)
  | [] => some none
  | [a, m] =>
    if (a = 'A' ∨ a = 'a') ∧ (m = 'M' ∨ m = 'm') then some (some false)
    else if (a = 'P' ∨ a = 'p') ∧ (m = 'M' ∨ m = 'm') then some (some true)
    else none
  | _ => none

/-- `\s*(AM|PM)?$` -/
def parseTimeTail (l : List Char) : Option (Option Bool) :=
  parseAmPmTail (l.dropWhile isSpaceChar)

/-- `(?::(\d{2}))?` then the tail: the optional seconds group of the
`parseTime` regular expression. -/
def parseSecondsTail : List Char → Option (Option Bool)
  | ':' :: s1 :: s2 :: r =>
    if s1.isDigit ∧ s2.isDigit then parseTimeTail r else none
  | ':' :: _ => none
  | l => parseTimeTail l

/-- `^(\d{1,2})` hour digits. -/
def parseHourDigits : List Char → Option (Nat × List Char)
  | c1 :: c2 :: r =>
    if c1.isDigit then
      if c2.isDigit then some (10 * dvc c1 + dvc c2, r) else some (dvc c1, c2 :: r)
    else none
  | [c1] => if c1.isDigit then some (dvc c1, []) else none
  | [] => none

/-- Full match of `/^(\d{1,2}):(\d{2})(?::(\d{2}))?\s*(AM|PM)?$/i`:
hours, minutes and the AM/PM flag. -/
def parseTimeMatch (l : List Char) : Option (Nat × Nat × Option Bool) :=
  match parseHourDigits l with
  | some (h, ':' :: m1 :: m2 :: r) =>
    if m1.isDigit ∧ m2.isDigit then
      (parseSecondsTail r).map fun ap => (h, 10 * dvc m1 + dvc m2, ap)
    else none
  | _ => none

namespace DateUtils

/-- `DateUtils.parseTime`: time string to minutes since midnight, `none`
on empty or unmatched input or out-of-range components. -/
def parseTime (timeStr : String) : Option Nat :=
  if timeStr = "" then none
  else
    match parseTimeMatch timeStr.data with
    | none => none
    | some (h, minutes, ampm) =>
      if (if ampm = some true ∧ h ≠ 12 then h + 12
          else if ampm = some false ∧ h = 12 then 0 else h) ≤ 23 ∧ minutes ≤ 59 then
        some ((if ampm = some true ∧ h ≠ 12 then h + 12
          else if ampm = some false ∧ h = 12 then 0 else h) * 60 + minutes)
      else none

end DateUtils

/-- `RecurrencePattern` from `src/types.ts`. -/
inductive RecPattern
  | daily
  | weekly
  | monthly
  | yearly
  | nonePat
deriving DecidableEq, Repr

/-- `CalendarEvent` (the calendar-event interface consumed by
`CalendarCore`; fields as read and written in `src/utils.ts`). -/
structure CalEvent where
  file : String
  title : String
  dateStr : String
  endDateStr : Option String
  time : Option String
  color : Option String
  recurrence : Option RecPattern
  recurrenceDays : Option (List Nat)
  isRecurring : Bool
  originalDateStr : String
deriving DecidableEq, Repr

/-- The date-indexed event map (`Map<string, CalendarEvent[]>`),
modelled as an association list preserving JS `Map` insertion order. -/
abbrev EventIndex : Type := List (String × List CalEvent)

/-- `map.has(k)` -/
def mapHas (m : EventIndex) (k : String) : Bool := m.any fun p => p.1 = k

/-- `map.get(k)` -/
def mapGet (m : EventIndex) (k : String) : Option (List CalEvent) :=
  (m.find? fun p => p.1 = k).map Prod.snd

/-- `CalendarCore.addEventToMap`: appends to the existing array for the
key, or inserts a fresh singleton array (new keys go to the end of the
`Map`'s insertion order). -/
def addEventToMap (m : EventIndex) (dateStr : String) (event : CalEvent) : EventIndex :=
  if mapHas m dateStr then
    m.map fun p => if p.1 = dateStr then (p.1, p.2 ++ [event]) else p
  else m ++ [(dateStr, [event])]

/-- JS truthiness of `event.time` (`undefined` and `""` are falsy). -/
def hasTime (e : CalEvent) : Bool :=
  match e.time with
  | none => false
  | some t => t ≠ ""

/-- The comparator passed to `events.sort` in
`CalendarCore.getDayEvents`. -/
def jsCompare (a b : CalEvent) : Int :=
  if ¬ hasTime a ∧ ¬ hasTime b then 0
  else if ¬ hasTime a then 1
  else if ¬ hasTime b then -1
  else ((DateUtils.parseTime (a.time.getD "")).getD 0 : Int)
    - ((DateUtils.parseTime (b.time.getD "")).getD 0 : Int)

/-- Stable insertion relative to `jsCompare`: the new element (which
originally precedes every element already in the list) goes before the
first element that compares greater-or-equal, so equal elements keep
their original relative order. -/
def sortInsert (x : CalEvent) : List CalEvent → List CalEvent
  | [] => [x]
  | y :: ys => if jsCompare y x < 0 then y :: sortInsert x ys else x :: y :: ys

/-- `Array.prototype.sort` with `jsCompare`: a stable sort (stability is
required by ES2019), modelled as insertion sort. -/
def jsSortEvents : List CalEvent → List CalEvent
  | [] => []
  | x :: xs => sortInsert x (jsSortEvents xs)

/-- `CalendarCore.getDayEvents`.  `events.sort` sorts the array stored in
the map *in place*; the second component of the result is the map as it
stands after the call (the stored array object now holds the sorted
order). -/
def getDayEvents (date : Int) (eventsMap : EventIndex) : List CalEvent × EventIndex :=
  let dateStr := DateUtils.toDateString date
  let events := (mapGet eventsMap dateStr).getD []
  let sorted := jsSortEvents events
  (sorted,
    if mapHas eventsMap dateStr then
      eventsMap.map fun p => if p.1 = dateStr then (p.1, sorted) else p
    else eventsMap)

/-- A scalar frontmatter value. -/
inductive FmScalar
  | str (s : String)
  | num (n : Int)
deriving DecidableEq, Repr

/-- A frontmatter value: a YAML scalar or an array of scalars (the only
shapes the core's frontmatter reads distinguish). -/
inductive FmVal
  | scalar (v : FmScalar)
  | arr (xs : List FmScalar)
deriving DecidableEq, Repr

/-- JS `String(value)` / `value.toString()` on a scalar. -/
def FmScalar.toStr : FmScalar → String
  | .str s => s
  | .num n => toString n

/-- JS `String(value)` / `value.toString()` (arrays join with `,`). -/
def FmVal.toStr : FmVal → String
  | .scalar v => v.toStr
  | .arr xs => String.intercalate "," (xs.map FmScalar.toStr)

/-- JS falsiness of a frontmatter value (`""` and `0`; arrays are always
truthy). -/
def FmVal.falsy : FmVal → Bool
  | .scalar (.str s) => s = ""
  | .scalar (.num n) => n = 0
  | .arr _ => false

/-- Kernel-computable `String.trim` (JS `trim`): strip whitespace from
both ends. -/
def jsTrim (s : String) : String :=
  ⟨((s.data.dropWhile Char.isWhitespace).reverse.dropWhile Char.isWhitespace).reverse⟩

/-- Split at every character satisfying `p` (the semantics of
`String.split`, kernel-computable). -/
def splitCharsAux (p : Char → Bool) : List Char → List Char → List (List Char)
  | [], acc => [acc.reverse]
  | c :: rest, acc =>
    if p c then acc.reverse :: splitCharsAux p rest []
    else splitCharsAux p rest (c :: acc)

/-- `s.split(p)` as a list of strings. -/
def jsSplit (s : String) (p : Char → Bool) : List String :=
  (splitCharsAux p s.data []).map fun l => ⟨l⟩

/-- Kernel-computable `toLowerCase` (ASCII). -/
def jsToLower (s : String) : String := ⟨s.data.map Char.toLower⟩

/-- Code-unit lexicographic string order (JS `<=` on strings),
kernel-computable. -/
def strLeChars : List Char → List Char → Bool
  | [], _ => true
  | _ :: _, [] => false
  | a :: as, b :: bs => if a < b then true else if a = b then strLeChars as bs else false

/-- `a <= b` on strings. -/
def jsStrLe (a b : String) : Bool := strLeChars a.data b.data

/-- The slice of `CachedMetadata` the core reads: file identity, inline
tags (with their leading `#`), and the frontmatter key-value map. -/
structure FileCache where
  path : String
  basename : String
  tags : List String
  frontmatter : Option (List (String × FmVal))

/-- `frontmatter[key]` -/
def fmGet (fm : List (String × FmVal)) (k : String) : Option FmVal :=
  (fm.find? fun p => p.1 = k).map Prod.snd

/-- The slice of `CalendarPluginSettings` the core reads. -/
structure Settings where
  tagFilter : String
  tagFilterMode : String
  dateProperty : String
  endDateProperty : String
  timeProperty : String
  colorProperty : String
  recurrenceProperty : String
  recurrenceDaysProperty : String
deriving DecidableEq, Repr

/-- `tag.replace(/^#/, '')`: strips one leading `#`. -/
def stripHash (t : String) : String :=
  match t.data with
  | '#' :: r => ⟨r⟩
  | _ => t

/-- `s.split(/[,\s]+/)` followed by dropping empty parts (the code
filters `t.length > 0` explicitly). -/
def splitTagList (s : String) : List String :=
  (jsSplit s fun c => c = ',' || c.isWhitespace).filter fun t => t.length > 0

/-- The document's tag set as `hasRequiredTags` assembles it: inline tags
with the leading `#` stripped, then frontmatter `tags` (array elements
coerced with `toString`; a scalar only when it is a string). -/
def fileTagsOf (cache : FileCache) : List String :=
  let inline := cache.tags.map stripHash
  let fmTags : List String :=
    match cache.frontmatter with
    | none => []
    | some fm =>
      match fmGet fm "tags" with
      | none => []
      | some v =>
        if v.falsy then []
        else
          match v with
          | .arr xs => xs.map FmScalar.toStr
          | .scalar (.str s) => [s]
          | _ => []
  inline ++ fmTags

/-- `CalendarCore.hasRequiredTags`. -/
def hasRequiredTags (st : Settings) (cache : FileCache) : Bool :=
  let tagFilter := jsTrim st.tagFilter
  if tagFilter = "" then true
  else
    let requiredTags := splitTagList tagFilter
    if requiredTags.length = 0 then true
    else
      let fileTags := fileTagsOf cache
      if st.tagFilterMode = "all" then
        requiredTags.all fun t => fileTags.contains t
      else
        requiredTags.any fun t => fileTags.contains t

/-- `CalendarCore.parseRecurrence`. -/
def parseRecurrence (value : Option FmVal) : Option RecPattern :=
  match value with
  | none => none
  | some v =>
    if v.falsy then none
    else
      let str := jsToLower v.toStr
      if str = "daily" then some .daily
      else if str = "weekly" then some .weekly
      else if str = "monthly" then some .monthly
      else if str = "yearly" then some .yearly
      else if str = "none" then some .nonePat
      else none

/-- The weekday-name table of `parseRecurrenceDays`. -/
def dayMapLookup (s : String) : Option Nat :=
  if s = "sun" ∨ s = "sunday" then some 0
  else if s = "mon" ∨ s = "monday" then some 1
  else if s = "tue" ∨ s = "tuesday" then some 2
  else if s = "wed" ∨ s = "wednesday" then some 3
  else if s = "thu" ∨ s = "thursday" then some 4
  else if s = "fri" ∨ s = "friday" then some 5
  else if s = "sat" ∨ s = "saturday" then some 6
  else none

/-- `CalendarCore.parseRecurrenceDays`: numeric array entries 0-6,
weekday-name array entries, or a comma/space-separated weekday-name
string; unrecognized entries dropped; `none` when nothing remains. -/
def parseRecurrenceDays (value : Option FmVal) : Option (List Nat) :=
  match value with
  | none => none
  | some v =>
    if v.falsy then none
    else
      let result : List Nat :=
        match v with
        | .arr items =>
          items.filterMap fun item =>
            match item with
            | .num n => if 0 ≤ n ∧ n ≤ 6 then some n.toNat else none
            | .str s => dayMapLookup (jsToLower s)
        | .scalar (.str s) =>
          (jsSplit s fun c => c = ',' || c.isWhitespace).filterMap fun part =>
            dayMapLookup (jsToLower (jsTrim part))
        | _ => []
      if result.length > 0 then some result else none

/-- `CalendarCore.normalizeDate`: parse then reformat; `none` when the
parse produces an invalid date. -/
def normalizeDate (dateStr : String) : Option String :=
  (DateUtils.fromDateString dateStr).map DateUtils.toDateString

/-- `CalendarCore.getDateFromFrontmatter`: first element when the value
is an array, otherwise the value itself, coerced to a string. -/
def getDateFromFrontmatter (cache : FileCache) (property : String) : Option String :=
  match cache.frontmatter with
  | none => none
  | some fm =>
    match fmGet fm property with
    | none => none
    | some v =>
      if v.falsy then none
      else
        match v with
        | .arr xs => xs.head?.map FmScalar.toStr
        | v => some v.toStr

/-- `CalendarCore.getDatesFromFrontmatter`. -/
def getDatesFromFrontmatter (cache : FileCache) (property : String) : List String :=
  match cache.frontmatter with
  | none => []
  | some fm =>
    match fmGet fm property with
    | none => []
    | some v =>
      if v.falsy then []
      else
        match v with
        | .arr xs => (xs.map FmScalar.toStr).filter fun d => d.length > 0
        | v => [v.toStr]

/-- `SettingsValidator.isValidHexColor`: `/^#([0-9A-Fa-f]{3}){1,2}$/`,
with the empty string valid. -/
def isValidHexColor (color : String) : Bool :=
  if color = "" then true
  else
    match color.data with
    | '#' :: rest => (rest.length = 3 ∨ rest.length = 6) ∧ rest.all fun c =>
        c.isDigit ∨ ('a' ≤ c ∧ c ≤ 'f') ∨ ('A' ≤ c ∧ c ≤ 'F')
    | _ => false

/-- `SettingsValidator.resolveColor`.  The `EVENT_COLORS` name-to-hex
table is declared in a source file not present under `src/`, so the
table is taken as a parameter. -/
def resolveColor (eventColors : List (String × String)) (color : String) : String :=
  if color = "" then ""
  else
    match (eventColors.find? fun p => p.1 = jsToLower color).map Prod.snd with
    | some hex =>
      if hex ≠ "" then hex
      else if isValidHexColor color then color else ""
    | none => if isValidHexColor color then color else ""

/-- `recurrence !== undefined && recurrence !== 'none'` -/
def isRecurringOf (recurrence : Option RecPattern) : Bool :=
  match recurrence with
  | none => false
  | some p => p ≠ .nonePat

/-- `CalendarCore.createEventsFromFile`. -/
def createEventsFromFile (st : Settings) (eventColors : List (String × String))
    (file : FileCache) : List CalEvent :=
  let dates := getDatesFromFrontmatter file st.dateProperty
  if dates.length = 0 then []
  else
    let fm := file.frontmatter.getD []
    let endDateStr := getDateFromFrontmatter file st.endDateProperty
    let time : Option String :=
      match fmGet fm st.timeProperty with
      | none => none
      | some v => if v.toStr = "" then none else some v.toStr
    let rawColor : Option String :=
      match fmGet fm st.colorProperty with
      | none => none
      | some v => if v.toStr = "" then none else some v.toStr
    let color := rawColor.map (resolveColor eventColors)
    let recurrence := parseRecurrence (fmGet fm st.recurrenceProperty)
    let recurrenceDays := parseRecurrenceDays (fmGet fm st.recurrenceDaysProperty)
    dates.filterMap fun dateStr =>
      match normalizeDate dateStr with
      | none => none
      | some normalizedDate =>
        let normalizedEndDate : Option String :=
          match endDateStr with
          | none => none
          | some es => if es = "" then none else normalizeDate es
        some {
          file := file.path
          title := file.basename
          dateStr := normalizedDate
          endDateStr := normalizedEndDate
          time := time
          color := color
          recurrence := recurrence
          recurrenceDays := recurrenceDays
          isRecurring := isRecurringOf recurrence
          originalDateStr := normalizedDate }

/-- The `switch (event.recurrence)` advance step: `none` models the
`default: return` arm. -/
def recurStep (p : Option RecPattern) (t : Int) : Option Int :=
  match p with
  | some .daily => some (DateUtils.addDays t 1)
  | some .weekly => some (DateUtils.addDays t 7)
  | some .monthly => some (DateUtils.addMonths t 1)
  | some .yearly => some (DateUtils.addMonths t 12)
  | _ => none

/-- `maxIterations = 365 * 2` in `addRecurringEvents`. -/
def maxIterations : Nat := 365 * 2

/-- The `while` loop of `CalendarCore.addRecurringEvents`, returning the
emitted `(dateStr, occurrence)` pairs in order.  `fuel` is
`maxIterations - iterations`, so the guard `iterations < maxIterations`
is `fuel > 0`. -/
def expandLoop (ev : CalEvent) (windowStart windowEnd : Int) : Nat → Int → List (String × CalEvent)
  | 0, _ => []
  | fuel + 1, cur =>
    if cur ≤ windowEnd then
      let si :=
        if windowStart ≤ cur ∧ ev.recurrence = some .daily ∧
            (ev.recurrenceDays.getD []).length > 0 then
          (ev.recurrenceDays.getD []).contains (jsGetDay cur).toNat
        else decide (windowStart ≤ cur)
      let emitted :=
        if si then
          [(DateUtils.toDateString cur,
            { ev with dateStr := DateUtils.toDateString cur, isRecurring := true,
                      originalDateStr := ev.dateStr })]
        else []
      match recurStep ev.recurrence cur with
      | none => emitted
      | some next => emitted ++ expandLoop ev windowStart windowEnd fuel next
    else []

/-- Number of executed loop-body iterations of `expandLoop`. -/
def expandIters (ev : CalEvent) (windowEnd : Int) : Nat → Int → Nat
  | 0, _ => 0
  | fuel + 1, cur =>
    if cur ≤ windowEnd then
      match recurStep ev.recurrence cur with
      | none => 1
      | some next => 1 + expandIters ev windowEnd fuel next
    else 0

/-- `CalendarCore.addRecurringEvents`.  `now` is the value of
`new Date()` used for the default window (one month back, twelve months
ahead); an unparseable anchor gives an invalid date whose comparisons
are all false, so the loop never runs. -/
def addRecurringEvents (m : EventIndex) (ev : CalEvent)
    (viewStartDate viewEndDate : Option Int) (now : Int) : EventIndex :=
  match DateUtils.fromDateString ev.dateStr with
  | none => m
  | some startDate =>
    let endDate := viewEndDate.getD (DateUtils.addMonths now 12)
    let actualStartDate := viewStartDate.getD (DateUtils.addMonths now (-1))
    (expandLoop ev actualStartDate endDate maxIterations startDate).foldl
      (fun acc p => addEventToMap acc p.1 p.2) m

/-- `DateUtils.getDatesBetween` (inclusive day enumeration). -/
def getDatesBetween (start endT : Int) : List Int :=
  if start ≤ endT then start :: getDatesBetween (start + msPerDay) endT else []
termination_by (endT + msPerDay - start).toNat
decreasing_by
  simp only [msPerDay] at *
  omega

/-- `CalendarCore.addDateRangeEvents`.  An invalid start or end date makes
every loop comparison false, so nothing is added. -/
def addDateRangeEvents (m : EventIndex) (ev : CalEvent) : EventIndex :=
  match ev.endDateStr with
  | none => addEventToMap m ev.dateStr ev
  | some endStr =>
    match DateUtils.fromDateString ev.dateStr, DateUtils.fromDateString endStr with
    | some s, some e =>
      (getDatesBetween s e).foldl
        (fun acc date =>
          addEventToMap acc (DateUtils.toDateString date)
            { ev with dateStr := DateUtils.toDateString date }) m
    | _, _ => m

/-- `CalendarCore.filterEventsForDateRange`: lexical date-key filtering,
preserving entry order; no bound means the map is returned as is. -/
def filterEventsForDateRange (eventsMap : EventIndex)
    (startDate endDate : Option Int) : EventIndex :=
  match startDate, endDate with
  | some s, some e =>
    let startStr := DateUtils.toDateString s
    let endStr := DateUtils.toDateString e
    eventsMap.filter fun p => jsStrLe startStr p.1 && jsStrLe p.1 endStr
  | _, _ => eventsMap

/-- The full-corpus rebuild inside `getEventsWithDates`: per file,
tag-filter then extraction then routing to recurrence expansion, range
expansion, or direct insertion. -/
def buildIndex (st : Settings) (eventColors : List (String × String))
    (files : List FileCache) (viewStartDate viewEndDate : Option Int)
    (now : Int) : EventIndex :=
  files.foldl
    (fun acc file =>
      if hasRequiredTags st file then
        (createEventsFromFile st eventColors file).foldl
          (fun acc2 event =>
            if isRecurringOf event.recurrence then
              addRecurringEvents acc2 event viewStartDate viewEndDate now
            else if event.endDateStr ≠ none then
              addDateRangeEvents acc2 event
            else
              addEventToMap acc2 event.dateStr event)
          acc
      else acc)
    []

/-- The mutable cache fields of `CalendarCore`. -/
structure CoreState where
  eventCache : EventIndex
  lastCacheUpdate : Int
deriving DecidableEq, Repr

/-- A fresh `CalendarCore` (empty cache, `lastCacheUpdate = 0`). -/
def initialCoreState : CoreState := ⟨[], 0⟩

/-- `cacheTimeout = 5000` ms. -/
def cacheTimeout : Int := 5000

/-- `CalendarCore.getEventsWithDates` as a state transition.  `now` is
`Date.now()` (also the `new Date()` used for window defaulting, the same
call instant).  Returns the filtered view, the state after the call, and
whether the document corpus was read (a rebuild happened). -/
def getEventsWithDates (core : CoreState) (st : Settings)
    (eventColors : List (String × String)) (files : List FileCache)
    (now : Int) (viewStartDate viewEndDate : Option Int) :
    EventIndex × CoreState × Bool :=
  if core.eventCache.length > 0 ∧ now - core.lastCacheUpdate < cacheTimeout then
    (filterEventsForDateRange core.eventCache viewStartDate viewEndDate, core, false)
  else
    let eventsWithDates := buildIndex st eventColors files viewStartDate viewEndDate now
    (filterEventsForDateRange eventsWithDates viewStartDate viewEndDate,
      ⟨eventsWithDates, now⟩, true)

/-! ## `DateUtils.formatDate` and `DateUtils.getWeekNumber` (`src/types.ts`) -/

/-- One global-flag literal replacement pass
(`String.prototype.replace(/pat/g, rep)`): scan left to right, replace
each non-overlapping occurrence, never rescanning replacement text.
`fuel` only makes the recursion structural: each step consumes at least
one input character, so with `fuel = input length` the `0` arm is never
reached. -/
def replaceAllAux (pat rep : List Char) : Nat → List Char → List Char
  | 0, l => l
  | _, [] => []
  | fuel + 1, c :: rest =>
    if pat.isPrefixOf (c :: rest) ∧ pat ≠ [] then
      rep ++ replaceAllAux pat rep fuel ((c :: rest).drop pat.length)
    else
      c :: replaceAllAux pat rep fuel rest

/-- `s.replace(/pat/g, rep)` for a literal pattern. -/
def jsReplaceAll (s pat rep : String) : String :=
  ⟨replaceAllAux pat.data rep.data s.data.length s.data⟩

/-- `toLocaleDateString('en-US', { month: 'long' })` month names. -/
def enMonthsLong : List String :=
  ["January", "February", "March", "April", "May", "June", "July",
   "August", "September", "October", "November", "December"]

/-- `toLocaleDateString('en-US', { month: 'short' })` month names. -/
def enMonthsShort : List String :=
  ["Jan", "Feb", "Mar", "Apr", "May", "Jun", "Jul", "Aug", "Sep", "Oct",
   "Nov", "Dec"]

/-- `toLocaleDateString('en-US', { weekday: 'long' })` weekday names,
indexed by `getDay()`. -/
def enWeekdaysLong : List String :=
  ["Sunday", "Monday", "Tuesday", "Wednesday", "Thursday", "Friday",
   "Saturday"]

/-- `toLocaleDateString('en-US', { weekday: 'short' })` weekday names. -/
def enWeekdaysShort : List String :=
  ["Sun", "Mon", "Tue", "Wed", "Thu", "Fri", "Sat"]

/-- Full month name of a date (month component is 1-based). -/
def enMonthLong (m : Int) : String := enMonthsLong.getD (m - 1).toNat ""

/-- Short month name of a date. -/
def enMonthShort (m : Int) : String := enMonthsShort.getD (m - 1).toNat ""

/-- `year.toString().slice(-2)`: the last two characters (or the whole
string when shorter). -/
def sliceLastTwo (s : String) : String := ⟨s.data.drop (s.data.length - 2)⟩

namespace DateUtils

/-- `DateUtils.formatDate` under the default `en-US` locale: the ten
literal-token replacement passes, in source order. -/
def formatDate (t : Int) (format : String) : String :=
  let c := civilFromDays (t / msPerDay)
  let year := c.1
  let month := pad2 c.2.1
  let day := pad2 c.2.2
  let monthName := enMonthLong c.2.1
  let shortMonthName := enMonthShort c.2.1
  let dayName := enWeekdaysLong.getD (jsGetDay t).toNat ""
  let shortDayName := enWeekdaysShort.getD (jsGetDay t).toNat ""
  jsReplaceAll (jsReplaceAll (jsReplaceAll (jsReplaceAll (jsReplaceAll
    (jsReplaceAll (jsReplaceAll (jsReplaceAll (jsReplaceAll (jsReplaceAll
      format "YYYY" (toString year))
      "YY" (sliceLastTwo (toString year)))
      "MMMM" monthName)
      "MMM" shortMonthName)
      "MM" month)
      "M" (toString c.2.1))
      "dddd" dayName)
      "ddd" shortDayName)
      "DD" day)
      "D" (toString c.2.2)

end DateUtils

/-- `Math.ceil(a / b)` for integer `a` and positive integer `b` (the
floating-point division in the source is exact at the magnitudes
involved, so the integer ceiling is the value computed). -/
def jsCeilDiv (a b : Int) : Int := -(-a / b)

namespace DateUtils

/-- `DateUtils.getWeekNumber` (`src/types.ts`): ISO algorithm when
`weekStartsOn = 1`, Sunday-based day-of-year algorithm otherwise. -/
def getWeekNumber (t : Int) (weekStartsOn : Nat) : Int :=
  if weekStartsOn = 1 then
    let n := t / msPerDay
    let w := (n + 4) % 7
    let dayNum := if w = 0 then 7 else w
    let n' := n + 4 - dayNum
    let yearStart := daysFromCivil (civilFromDays n').1 1 1
    jsCeilDiv (n' - yearStart + 1) 7
  else
    let n := t / msPerDay
    let yearStart := daysFromCivil (civilFromDays n).1 1 1
    let dayOfYear := n - yearStart
    let firstDayOfYear := (yearStart + 4) % 7
    jsCeilDiv (dayOfYear + firstDayOfYear + 1) 7

end DateUtils

/-- Modelled from the spec: the ISO week number, stated independently as
"Monday-start, Thursday-anchored year boundary": take the Thursday of
the date's Monday-start week; the week number is one more than the
number of whole weeks between that Thursday and January 1 of the
Thursday's year. -/
def isoWeekNumber (n : Int) : Int :=
  let thu := n + 3 - (n + 3) % 7
  (thu - daysFromCivil (civilFromDays thu).1 1 1) / 7 + 1

/-- Modelled from the spec: the Sunday-based week number as "day-of-year
/ 7 ceiling", offset by the weekday of January 1. -/
def sundayWeekNumber (n : Int) : Int :=
  let ys := daysFromCivil (civilFromDays n).1 1 1
  jsCeilDiv (n - ys + (ys + 4) % 7 + 1) 7


example : DateUtils.formatDate (daysFromCivil 2025 3 5 * msPerDay) "MMMM" = "3arch" := by decide
example : DateUtils.formatDate (daysFromCivil 2025 3 5 * msPerDay) "dddd" = "Wednesday" := by decide
example : DateUtils.formatDate (daysFromCivil 2025 3 5 * msPerDay) "YYYY-MM-DD" = "2025-03-05" := by decide
example : DateUtils.getWeekNumber (daysFromCivil 2024 1 1 * msPerDay) 1 = 1 := by decide
example : DateUtils.getWeekNumber (daysFromCivil 2024 1 1 * msPerDay) 0 = 1 := by decide
example : DateUtils.parseTime "2:30 PM" = some 870 := by decide
example : DateUtils.parseTime "14:30:00" = some 870 := by decide
example : DateUtils.parseTime "99:30" = none := by decide
example : DateUtils.formatDate (daysFromCivil 2025 12 9 * msPerDay) "MMMM" = "9ecember" := by decide
example : DateUtils.formatDate (daysFromCivil 2025 5 9 * msPerDay) "MMM" = "5ay" := by decide

/-- The loop body count never exceeds the remaining fuel. -/
theorem expandIters_le_fuel (ev : CalEvent) (we : Int) :
    ∀ (fuel : Nat) (cur : Int), expandIters ev we fuel cur ≤ fuel := by
  intro fuel
  induction fuel with
  | zero => intro cur; simp [expandIters]
  | succ f ih =>
    intro cur
    simp only [expandIters]
    split
    · cases h : recurStep ev.recurrence cur <;> simp only [h]
      · omega
      · rename_i next
        have := ih next
        omega
    · omega

/-- Each loop body emits at most one occurrence. -/
theorem expandLoop_length_le (ev : CalEvent) (ws we : Int) :
    ∀ (fuel : Nat) (cur : Int),
      (expandLoop ev ws we fuel cur).length ≤ expandIters ev we fuel cur := by
  intro fuel
  induction fuel with
  | zero => intro cur; simp [expandLoop, expandIters]
  | succ f ih =>
    intro cur
    simp only [expandLoop, expandIters]
    split
    · cases h : recurStep ev.recurrence cur <;> simp only [h]
      · split_ifs <;> simp
      · rename_i next
        have := ih next
        split_ifs <;>
          simp only [List.length_append, List.length_cons, List.length_nil] <;> omega
    · simp

/-- C2: recurrence expansion terminates for every draft and every window:
`maxIterations = 365 * 2 = 730`, the expansion loop of
`addRecurringEvents` executes at most 730 body iterations regardless of
the window bounds (including the unbounded/default window and any
anchor), and when the cap is reached expansion simply returns the
occurrences generated so far as an ordinary list (at most one per
iteration, hence at most 730), not an error. -/
theorem claim_C2_termination_cap :
    maxIterations = 730 ∧
    (∀ (ev : CalEvent) (we : Int) (cur : Int),
      expandIters ev we maxIterations cur ≤ 730) ∧
    (∀ (ev : CalEvent) (ws we : Int) (cur : Int),
      (expandLoop ev ws we maxIterations cur).length ≤
        expandIters ev we maxIterations cur) := by
  refine ⟨rfl, fun ev we cur => ?_, fun ev ws we cur => expandLoop_length_le ev ws we _ cur⟩
  exact expandIters_le_fuel ev we maxIterations cur

/-- The C6 scenario draft: anchor `2025-01-06` (a Monday), pattern
`daily`, weekday restriction `{1,3,5}`. -/
def evC6 : CalEvent :=
  { file := "Standup.md", title := "Standup", dateStr := "2025-01-06",
    endDateStr := none, time := none, color := none,
    recurrence := some .daily, recurrenceDays := some [1, 3, 5],
    isRecurring := true, originalDateStr := "2025-01-06" }

/-- An occurrence of `evC6` on a given day. -/
def occC6 (s : String) : CalEvent :=
  { evC6 with dateStr := s, isRecurring := true, originalDateStr := "2025-01-06" }

/-- Start of the C6 window: local midnight of the anchor. -/
def wsC6 : Int := daysFromCivil 2025 1 6 * msPerDay

/-- End of the C6 window: two weeks from the anchor (last covered day
2025-01-19). -/
def weC6 : Int := daysFromCivil 2025 1 19 * msPerDay

/-- Ignoring the weekday restriction: when the pattern is not `daily`, or
the restriction set is empty, expansion emits exactly the same dates as
it would with no restriction at all. -/
theorem expandLoop_keys_no_restriction (ev : CalEvent) (ws we : Int)
    (h : ev.recurrence ≠ some .daily ∨ ev.recurrenceDays.getD [] = []) :
    ∀ (fuel : Nat) (cur : Int),
      (expandLoop ev ws we fuel cur).map Prod.fst =
        (expandLoop { ev with recurrenceDays := none } ws we fuel cur).map Prod.fst := by
  intro fuel
  induction fuel with
  | zero => intro cur; rfl
  | succ f ih =>
    intro cur
    simp only [expandLoop]
    have hc1 : ¬ (ws ≤ cur ∧ ev.recurrence = some .daily ∧
        (ev.recurrenceDays.getD []).length > 0) := by
      rcases h with h | h
      · rintro ⟨_, h2, _⟩; exact h h2
      · rintro ⟨_, _, h3⟩; rw [h] at h3; simp at h3
    have hc2 : ¬ (ws ≤ cur ∧
        ({ ev with recurrenceDays := none } : CalEvent).recurrence = some .daily ∧
        ((({ ev with recurrenceDays := none } : CalEvent).recurrenceDays).getD []).length > 0) := by
      rintro ⟨_, _, h3⟩; simp at h3
    rw [if_neg hc1, if_neg hc2]
    by_cases hcw : cur ≤ we
    · rw [if_pos hcw, if_pos hcw]
      have hre : ({ ev with recurrenceDays := none } : CalEvent).recurrence = ev.recurrence := rfl
      rw [hre]
      cases hstep : recurStep ev.recurrence cur <;> simp only [hstep]
      · split <;> simp
      · rename_i next
        split <;> simp [ih next]
    · rw [if_neg hcw, if_neg hcw]

/-- C6: for the draft with anchor `2025-01-06` (a Monday), pattern
`daily`, weekday restriction `{1,3,5}`, expanded over the two-week
window `2025-01-06 .. 2025-01-19`, exactly 6 occurrences are emitted, on
`01-06, 01-08, 01-10, 01-13, 01-15, 01-17`, each landing on a Monday,
Wednesday or Friday, each with `isRecurring = true` and
`originalDateStr` equal to the anchor; and the weekday-restriction check
is applied only when the pattern is `daily` and the restriction set is
non-empty (otherwise the emitted dates are those of an unrestricted
expansion). -/
theorem claim_C6_daily_weekday_restriction :
    addRecurringEvents [] evC6 (some wsC6) (some weC6) 0 =
      [("2025-01-06", [occC6 "2025-01-06"]), ("2025-01-08", [occC6 "2025-01-08"]),
       ("2025-01-10", [occC6 "2025-01-10"]), ("2025-01-13", [occC6 "2025-01-13"]),
       ("2025-01-15", [occC6 "2025-01-15"]), ("2025-01-17", [occC6 "2025-01-17"])] ∧
    (["2025-01-06", "2025-01-08", "2025-01-10", "2025-01-13", "2025-01-15",
      "2025-01-17"].all fun s =>
        [1, 3, 5].contains (jsGetDay ((DateUtils.fromDateString s).getD 0)).toNat) = true ∧
    (∀ (ev : CalEvent) (ws we : Int) (fuel : Nat) (cur : Int),
      ev.recurrence ≠ some .daily ∨ ev.recurrenceDays.getD [] = [] →
      (expandLoop ev ws we fuel cur).map Prod.fst =
        (expandLoop { ev with recurrenceDays := none } ws we fuel cur).map Prod.fst) := by
  refine ⟨by decide, by decide, fun ev ws we fuel cur h => ?_⟩
  exact expandLoop_keys_no_restriction ev ws we h fuel cur

/-- C6 witness: the structural conjunct applied to a concrete `weekly`
draft with a (necessarily ignored) weekday restriction. -/
theorem claim_C6_daily_weekday_restriction_witness :
    (expandLoop { evC6 with recurrence := some .weekly } wsC6 weC6 20 wsC6).map Prod.fst =
      (expandLoop { { evC6 with recurrence := some .weekly } with recurrenceDays := none }
        wsC6 weC6 20 wsC6).map Prod.fst := by
  exact claim_C6_daily_weekday_restriction.2.2
    { evC6 with recurrence := some .weekly } wsC6 weC6 20 wsC6 (by decide)

/-- Every pair emitted by the expansion loop is dated inside the window:
its key is the date string of some instant `c` with
`windowStart ≤ c ≤ windowEnd`, and the occurrence carries that key,
`isRecurring = true`, and the anchor as `originalDateStr`. -/
theorem expandLoop_mem_window (ev : CalEvent) (ws we : Int) :
    ∀ (fuel : Nat) (cur : Int) (p : String × CalEvent),
      p ∈ expandLoop ev ws we fuel cur →
      ∃ c : Int, ws ≤ c ∧ c ≤ we ∧ p.1 = DateUtils.toDateString c ∧
        p.2.dateStr = p.1 ∧ p.2.isRecurring = true ∧
        p.2.originalDateStr = ev.dateStr := by
  intro fuel
  induction fuel with
  | zero => intro cur p hp; simp [expandLoop] at hp
  | succ f ih =>
    intro cur p hp
    simp only [expandLoop] at hp
    by_cases hcw : cur ≤ we
    · rw [if_pos hcw] at hp
      cases hstep : recurStep ev.recurrence cur <;> rw [hstep] at hp
      · split_ifs at hp with hA hC hD
        · simp only [List.mem_singleton] at hp
          subst hp
          exact ⟨cur, hA.1, hcw, rfl, rfl, rfl, rfl⟩
        · simp at hp
        · simp only [List.mem_singleton] at hp
          subst hp
          exact ⟨cur, of_decide_eq_true hD, hcw, rfl, rfl, rfl, rfl⟩
        · simp at hp
      · rename_i next
        rcases List.mem_append.mp hp with hmem | hmem
        · split_ifs at hmem with hA hC hD
          · simp only [List.mem_singleton] at hmem
            subst hmem
            exact ⟨cur, hA.1, hcw, rfl, rfl, rfl, rfl⟩
          · simp at hmem
          · simp only [List.mem_singleton] at hmem
            subst hmem
            exact ⟨cur, of_decide_eq_true hD, hcw, rfl, rfl, rfl, rfl⟩
          · simp at hmem
        · exact ih next p hmem
    · rw [if_neg hcw] at hp
      simp at hp

/-- C10: the cached index's recurring content is fixed by the
rebuild-triggering call.
(1) Recurring expansion only emits occurrences dated inside the window
    it was invoked with.
(2) When a bound is absent, the window used is one month before `now`
    through twelve months after `now`.
(3) A call served from a valid cache returns exactly the lexical
    date-key filtering of the cached index, does not touch the corpus,
    and leaves the state unchanged.
(4) Filtering never adds entries, so a cache-served call whose window
    extends beyond the rebuilding call's window receives no recurring
    occurrences outside the window used at rebuild time. -/
theorem claim_C10_rebuild_window_fixed :
    (∀ (ev : CalEvent) (ws we : Int) (fuel : Nat) (cur : Int)
        (p : String × CalEvent), p ∈ expandLoop ev ws we fuel cur →
      ∃ c : Int, ws ≤ c ∧ c ≤ we ∧ p.1 = DateUtils.toDateString c ∧
        p.2.dateStr = p.1 ∧ p.2.isRecurring = true ∧
        p.2.originalDateStr = ev.dateStr) ∧
    (∀ (m : EventIndex) (ev : CalEvent) (now : Int),
      addRecurringEvents m ev none none now =
        addRecurringEvents m ev (some (DateUtils.addMonths now (-1)))
          (some (DateUtils.addMonths now 12)) now) ∧
    (∀ (core : CoreState) (st : Settings) (eventColors : List (String × String))
        (files : List FileCache) (now : Int) (vs ve : Option Int),
      core.eventCache.length > 0 → now - core.lastCacheUpdate < cacheTimeout →
      getEventsWithDates core st eventColors files now vs ve =
        (filterEventsForDateRange core.eventCache vs ve, core, false)) ∧
    (∀ (m : EventIndex) (vs ve : Option Int) (p : String × List CalEvent),
      p ∈ filterEventsForDateRange m vs ve → p ∈ m) := by
  refine ⟨fun ev ws we fuel cur p hp => expandLoop_mem_window ev ws we fuel cur p hp,
    fun m ev now => rfl, fun core st eventColors files now vs ve h1 h2 => ?_,
    fun m vs ve p hp => ?_⟩
  · simp only [getEventsWithDates]
    rw [if_pos ⟨h1, h2⟩]
  · unfold filterEventsForDateRange at hp
    split at hp
    · exact List.mem_of_mem_filter hp
    · exact hp

/-- C10 witness: window containment at a concrete expansion, cache-serve
at a concrete valid cache state, filter containment at a concrete map. -/
theorem claim_C10_rebuild_window_fixed_witness :
    (∃ c : Int, wsC6 ≤ c ∧ c ≤ weC6 ∧
      ("2025-01-08", occC6 "2025-01-08").1 = DateUtils.toDateString c ∧
      ("2025-01-08", occC6 "2025-01-08").2.dateStr = "2025-01-08" ∧
      ("2025-01-08", occC6 "2025-01-08").2.isRecurring = true ∧
      ("2025-01-08", occC6 "2025-01-08").2.originalDateStr = evC6.dateStr) ∧
    getEventsWithDates ⟨[("2025-01-06", [occC6 "2025-01-06"])], 0⟩
        ⟨"calendar", "any", "date", "endDate", "time", "color", "recurrence",
          "recurrenceDays"⟩ [] [] 1000 none none =
      (filterEventsForDateRange [("2025-01-06", [occC6 "2025-01-06"])] none none,
        ⟨[("2025-01-06", [occC6 "2025-01-06"])], 0⟩, false) ∧
    ("2025-01-06", [occC6 "2025-01-06"]) ∈
      ([("2025-01-06", [occC6 "2025-01-06"])] : EventIndex) := by
  refine ⟨?_, ?_, ?_⟩
  · have hmem : ("2025-01-08", occC6 "2025-01-08") ∈
        expandLoop evC6 wsC6 weC6 maxIterations (daysFromCivil 2025 1 6 * msPerDay) := by
      decide
    have h := claim_C10_rebuild_window_fixed.1 evC6 wsC6 weC6 maxIterations
      (daysFromCivil 2025 1 6 * msPerDay) ("2025-01-08", occC6 "2025-01-08") hmem
    simpa using h
  · exact claim_C10_rebuild_window_fixed.2.2.1
      ⟨[("2025-01-06", [occC6 "2025-01-06"])], 0⟩
      ⟨"calendar", "any", "date", "endDate", "time", "color", "recurrence",
        "recurrenceDays"⟩ [] [] 1000 none none (by decide) (by decide)
  · exact claim_C10_rebuild_window_fixed.2.2.2
      [("2025-01-06", [occC6 "2025-01-06"])] none none _ (by decide)

/-- A concrete settings snapshot (the default property names). -/
def settingsC : Settings :=
  ⟨"calendar", "any", "date", "endDate", "time", "color", "recurrence",
    "recurrenceDays"⟩

/-- A document carrying the `calendar` tag and a date, so its extraction
produces one event. -/
def docMeeting : FileCache :=
  ⟨"Meeting.md", "Meeting", [],
    some [("date", .scalar (.str "2025-01-06")),
          ("tags", .arr [.str "calendar"])]⟩

/-- C3 counterexample: with an empty document corpus the rebuild produces
an empty index, and the cache-validity test `eventCache.size > 0` then
fails on every later call, so two `getEventsWithDates()` calls 1000 ms
apart each read the documents and rebuild — the claim's "rebuilt exactly
once (during the first call)" is false. -/
theorem claim_C3_counterexample :
    (getEventsWithDates initialCoreState settingsC [] [] 0 none none).2.2 = true ∧
    (getEventsWithDates
      (getEventsWithDates initialCoreState settingsC [] [] 0 none none).2.1
      settingsC [] [] 1000 none none).2.2 = true ∧
    ((1000 : Int) - 0 < 5000) := by
  refine ⟨by decide, by decide, by decide⟩

/-- C3 (amended): starting from a state whose cache is empty or stale, a
`getEventsWithDates` call reads the documents and rebuilds, installing
`(index, now)`; when that rebuild produced a non-empty index, every
second call less than 5000 ms later with an unchanged corpus is served
from the cached index by lexical filtering without reading the
documents, and leaves the state unchanged; a second call 5000 ms or more
after the rebuild triggers a second rebuild.  (When the rebuild yields
an empty index, the `size > 0` validity test fails and every call
rebuilds.) -/
theorem claim_C3_cache_ttl (core : CoreState) (st : Settings)
    (eventColors : List (String × String)) (files : List FileCache)
    (t0 t1 : Int) (vs ve vs2 ve2 : Option Int)
    (hstale : core.eventCache.length = 0 ∨ cacheTimeout ≤ t0 - core.lastCacheUpdate) :
    (getEventsWithDates core st eventColors files t0 vs ve).2.2 = true ∧
    (getEventsWithDates core st eventColors files t0 vs ve).2.1 =
      ⟨buildIndex st eventColors files vs ve t0, t0⟩ ∧
    (buildIndex st eventColors files vs ve t0 ≠ [] → t1 - t0 < cacheTimeout →
      getEventsWithDates ⟨buildIndex st eventColors files vs ve t0, t0⟩ st
          eventColors files t1 vs2 ve2 =
        (filterEventsForDateRange (buildIndex st eventColors files vs ve t0) vs2 ve2,
         ⟨buildIndex st eventColors files vs ve t0, t0⟩, false)) ∧
    (cacheTimeout ≤ t1 - t0 →
      (getEventsWithDates ⟨buildIndex st eventColors files vs ve t0, t0⟩ st
        eventColors files t1 vs2 ve2).2.2 = true) := by
  have hnot : ¬ (core.eventCache.length > 0 ∧ t0 - core.lastCacheUpdate < cacheTimeout) := by
    rcases hstale with h | h
    · rintro ⟨h1, _⟩; omega
    · rintro ⟨_, h2⟩; omega
  refine ⟨?_, ?_, ?_, ?_⟩
  · simp only [getEventsWithDates]
    rw [if_neg hnot]
  · simp only [getEventsWithDates]
    rw [if_neg hnot]
  · intro hne hfresh
    simp only [getEventsWithDates]
    rw [if_pos ⟨by simpa using List.length_pos.mpr hne, by simpa using hfresh⟩]
  · intro hold
    have hnot2 : ¬ ((buildIndex st eventColors files vs ve t0).length > 0 ∧
        t1 - t0 < cacheTimeout) := by
      rintro ⟨_, h2⟩; omega
    simp only [getEventsWithDates]
    rw [if_neg hnot2]

/-- C3 amended-claim witness: a stale initial state, a one-document
corpus whose rebuild yields a non-empty index, calls at 0 ms and
1000 ms, and a late call at 6000 ms. -/
theorem claim_C3_cache_ttl_witness :
    ((getEventsWithDates initialCoreState settingsC [] [docMeeting] 0 none none).2.2 = true ∧
     (getEventsWithDates initialCoreState settingsC [] [docMeeting] 0 none none).2.1 =
       ⟨buildIndex settingsC [] [docMeeting] none none 0, 0⟩ ∧
     (buildIndex settingsC [] [docMeeting] none none 0 ≠ [] → (1000 : Int) - 0 < cacheTimeout →
       getEventsWithDates ⟨buildIndex settingsC [] [docMeeting] none none 0, 0⟩ settingsC
           [] [docMeeting] 1000 none none =
         (filterEventsForDateRange (buildIndex settingsC [] [docMeeting] none none 0) none none,
          ⟨buildIndex settingsC [] [docMeeting] none none 0, 0⟩, false)) ∧
     (cacheTimeout ≤ (6000 : Int) - 0 →
       (getEventsWithDates ⟨buildIndex settingsC [] [docMeeting] none none 0, 0⟩ settingsC
         [] [docMeeting] 6000 none none).2.2 = true)) ∧
    buildIndex settingsC [] [docMeeting] none none 0 ≠ [] := by
  have h1 := claim_C3_cache_ttl initialCoreState settingsC [] [docMeeting] 0 1000
    none none none none (Or.inl (by decide))
  have h2 := claim_C3_cache_ttl initialCoreState settingsC [] [docMeeting] 0 6000
    none none none none (Or.inl (by decide))
  exact ⟨⟨h1.1, h1.2.1, h1.2.2.1, h2.2.2.2⟩, by decide⟩

/-- A document with no tags at all. -/
def docNoTags : FileCache := ⟨"N.md", "N", [], none⟩

/-- A document whose frontmatter `tags` is the scalar number `123`. -/
def docNum123 : FileCache := ⟨"T.md", "T", [], some [("tags", .scalar (.num 123))]⟩

/-- A document whose tag set is `{calendar}` (frontmatter array). -/
def docCalOnly : FileCache := ⟨"C.md", "C", [], some [("tags", .arr [.str "calendar"])]⟩

/-- C9 counterexample.  Two divergences from the claim as stated:
(1) the config `","` is neither empty nor whitespace-only, splits into
    zero required tags, and in mode `any` the code returns `true` for a
    tagless document — but "at least one required tag is exactly
    present" is false for an empty required set;
(2) a scalar numeric frontmatter `tags` value is not coerced to a
    string: with required tags `{123}` and frontmatter `tags: 123`
    (which coerces to `"123"`), mode `any` returns `false` although the
    claim's document tag set contains `"123"`. -/
theorem claim_C9_counterexample :
    (hasRequiredTags ⟨",", "any", "date", "endDate", "time", "color", "recurrence",
        "recurrenceDays"⟩ docNoTags = true ∧
      splitTagList (jsTrim ",") = [] ∧ jsTrim "," ≠ "") ∧
    (hasRequiredTags ⟨"123", "any", "date", "endDate", "time", "color", "recurrence",
        "recurrenceDays"⟩ docNum123 = false ∧
      splitTagList (jsTrim "123") = ["123"] ∧
      FmVal.toStr (.scalar (.num 123)) = "123" ∧
      fmGet [("tags", FmVal.scalar (.num 123))] "tags" = some (.scalar (.num 123))) := by
  refine ⟨⟨by decide, by decide, by decide⟩, by decide, by decide, by decide, by decide⟩

/-- C9 (amended): when the configured tag filter contains no tag tokens
after trimming and splitting on commas/whitespace (in particular when it
is empty or whitespace-only), every document matches; otherwise, with
the document's tag set taken as the union of inline tags (one leading
`#` stripped) and frontmatter `tags` (array entries coerced to strings;
a scalar only when it is a string — non-string scalars are dropped),
mode `all` matches iff every required tag is exactly present and mode
`any` matches iff at least one is exactly present (no prefix matching);
in particular required tags `{calendar, meeting}` against document tags
`{calendar}` give `false` under `all` and `true` under `any`. -/
theorem claim_C9_tag_matching :
    (∀ (st : Settings) (cache : FileCache),
      splitTagList (jsTrim st.tagFilter) = [] → hasRequiredTags st cache = true) ∧
    (∀ (st : Settings) (cache : FileCache), st.tagFilterMode = "all" →
      splitTagList (jsTrim st.tagFilter) ≠ [] →
      (hasRequiredTags st cache = true ↔
        ∀ t ∈ splitTagList (jsTrim st.tagFilter), t ∈ fileTagsOf cache)) ∧
    (∀ (st : Settings) (cache : FileCache), st.tagFilterMode = "any" →
      splitTagList (jsTrim st.tagFilter) ≠ [] →
      (hasRequiredTags st cache = true ↔
        ∃ t ∈ splitTagList (jsTrim st.tagFilter), t ∈ fileTagsOf cache)) ∧
    hasRequiredTags ⟨"calendar, meeting", "all", "date", "endDate", "time", "color",
      "recurrence", "recurrenceDays"⟩ docCalOnly = false ∧
    hasRequiredTags ⟨"calendar, meeting", "any", "date", "endDate", "time", "color",
      "recurrence", "recurrenceDays"⟩ docCalOnly = true := by
  have hmain : ∀ (st : Settings) (cache : FileCache),
      splitTagList (jsTrim st.tagFilter) ≠ [] →
      hasRequiredTags st cache =
        (if st.tagFilterMode = "all" then
          (splitTagList (jsTrim st.tagFilter)).all fun t => (fileTagsOf cache).contains t
        else
          (splitTagList (jsTrim st.tagFilter)).any fun t => (fileTagsOf cache).contains t) := by
    intro st cache hne
    unfold hasRequiredTags
    have htrim : ¬ jsTrim st.tagFilter = "" := by
      intro h
      rw [h] at hne
      exact hne (by decide)
    rw [if_neg htrim, if_neg (by simpa [List.length_eq_zero] using hne)]
  refine ⟨?_, ?_, ?_, by decide, by decide⟩
  · intro st cache hempty
    unfold hasRequiredTags
    by_cases htrim : jsTrim st.tagFilter = ""
    · simp [htrim]
    · have hlen : (splitTagList (jsTrim st.tagFilter)).length = 0 := by simp [hempty]
      simp [htrim, hlen]
  · intro st cache hmode hne
    rw [hmain st cache hne, if_pos hmode]
    simp [List.all_eq_true, List.elem_iff]
  · intro st cache hmode hne
    rw [hmain st cache hne, if_neg (by rw [hmode]; decide)]
    simp [List.any_eq_true, List.elem_iff]

/-- C9 amended-claim witness: the no-token case at a whitespace-only
filter, and the `any`-mode equivalence at a concrete document. -/
theorem claim_C9_tag_matching_witness :
    hasRequiredTags ⟨"  ", "all", "date", "endDate", "time", "color", "recurrence",
      "recurrenceDays"⟩ docNoTags = true ∧
    (hasRequiredTags ⟨"calendar", "any", "date", "endDate", "time", "color",
        "recurrence", "recurrenceDays"⟩ docCalOnly = true ↔
      ∃ t ∈ splitTagList (jsTrim "calendar"), t ∈ fileTagsOf docCalOnly) := by
  constructor
  · exact claim_C9_tag_matching.1
      ⟨"  ", "all", "date", "endDate", "time", "color", "recurrence",
        "recurrenceDays"⟩ docNoTags (by decide)
  · exact claim_C9_tag_matching.2.2.1
      ⟨"calendar", "any", "date", "endDate", "time", "color", "recurrence",
        "recurrenceDays"⟩ docCalOnly rfl (by decide)

/-- C4 (code bug): `formatDate` replaces longer tokens first, but the
later single-letter passes run over already-substituted text.  For
2025-03-05 and format `"MMMM"` the `MMMM` pass yields `"March"` and the
subsequent `/M/g` pass corrupts it to `"3arch"` — not the full month
name the claim (and the spec's "no partial-match corruption") requires.
`"dddd"` happens to survive because en-US weekday names contain no later
token letter; a plain `"YYYY-MM-DD"` format also works. -/
theorem claim_C4_format_corruption :
    DateUtils.formatDate (daysFromCivil 2025 3 5 * msPerDay) "MMMM" = "3arch" ∧
    enMonthLong 3 = "March" ∧
    DateUtils.formatDate (daysFromCivil 2025 12 9 * msPerDay) "MMMM" = "9ecember" ∧
    DateUtils.formatDate (daysFromCivil 2025 3 5 * msPerDay) "dddd" = "Wednesday" ∧
    DateUtils.formatDate (daysFromCivil 2025 3 5 * msPerDay) "YYYY-MM-DD" = "2025-03-05" := by
  refine ⟨by decide, by decide, by decide, by decide, by decide⟩

/-- An occurrence with no time field. -/
def evNoTime : CalEvent :=
  { file := "a.md", title := "A", dateStr := "2025-01-06", endDateStr := none,
    time := none, color := none, recurrence := none, recurrenceDays := none,
    isRecurring := false, originalDateStr := "2025-01-06" }

/-- An occurrence with a time field. -/
def evTimed : CalEvent :=
  { evNoTime with file := "b.md", title := "B", time := some "09:00" }

/-- The index whose stored sequence `getDayEvents` reorders. -/
def idxC5 : EventIndex := [("2025-01-06", [evNoTime, evTimed])]

/-- C5 (code bug): `getDayEvents` calls `Array.prototype.sort` on the
array object stored in the map, which sorts it in place.  For the stored
sequence `[evNoTime, evTimed]` (corpus iteration order) the call leaves
the map holding `[evTimed, evNoTime]`: the stored occurrence sequence is
changed, contradicting the claim that query operations do not mutate the
index they read. -/
theorem claim_C5_query_mutates_index :
    mapGet idxC5 "2025-01-06" = some [evNoTime, evTimed] ∧
    (getDayEvents (daysFromCivil 2025 1 6 * msPerDay) idxC5).1 = [evTimed, evNoTime] ∧
    (getDayEvents (daysFromCivil 2025 1 6 * msPerDay) idxC5).2 =
      [("2025-01-06", [evTimed, evNoTime])] ∧
    ([evTimed, evNoTime] : List CalEvent) ≠ [evNoTime, evTimed] := by
  refine ⟨by decide, by decide, by decide, by decide⟩

/-- `Math.ceil((a+1)/7) = floor(a/7) + 1` for integers. -/
theorem jsCeilDiv_seven (a : Int) : jsCeilDiv (a + 1) 7 = a / 7 + 1 := by
  unfold jsCeilDiv
  omega

/-- C7: `getWeekNumber` selects its algorithm solely by `weekStartsOn`:
`1` computes the Thursday-anchored ISO week number, `0` (and any other
value) computes the Sunday-based day-of-year/7-ceiling week number, and
`2024-01-01` with `weekStartsOn = 1` is ISO week 1. -/
theorem claim_C7_week_number :
    (∀ t : Int, DateUtils.getWeekNumber t 1 = isoWeekNumber (t / msPerDay)) ∧
    (∀ t : Int, DateUtils.getWeekNumber t 0 = sundayWeekNumber (t / msPerDay)) ∧
    (∀ (t : Int) (w : Nat), w ≠ 1 →
      DateUtils.getWeekNumber t w = DateUtils.getWeekNumber t 0) ∧
    DateUtils.getWeekNumber (daysFromCivil 2024 1 1 * msPerDay) 1 = 1 := by
  refine ⟨?_, ?_, ?_, by decide⟩
  · intro t
    simp only [DateUtils.getWeekNumber, isoWeekNumber, if_true]
    have hdn : t / msPerDay + 4 -
        (if (t / msPerDay + 4) % 7 = 0 then 7 else (t / msPerDay + 4) % 7) =
        t / msPerDay + 3 - (t / msPerDay + 3) % 7 := by
      split_ifs <;> omega
    rw [hdn]
    exact jsCeilDiv_seven _
  · intro t
    rfl
  · intro t w hw
    simp only [DateUtils.getWeekNumber]
    rw [if_neg hw]
    norm_num

/-- C7 witness: the `w ≠ 1` conjunct applied at `w = 5` (any non-1 value
runs the Sunday-based branch) and the ISO conjunct at a concrete date. -/
theorem claim_C7_week_number_witness :
    DateUtils.getWeekNumber (daysFromCivil 2024 1 1 * msPerDay) 5 =
      DateUtils.getWeekNumber (daysFromCivil 2024 1 1 * msPerDay) 0 ∧
    DateUtils.getWeekNumber (daysFromCivil 2024 6 15 * msPerDay) 1 =
      isoWeekNumber (daysFromCivil 2024 6 15 * msPerDay / msPerDay) := by
  constructor
  · exact claim_C7_week_number.2.2.1 (daysFromCivil 2024 1 1 * msPerDay) 5 (by decide)
  · exact claim_C7_week_number.1 (daysFromCivil 2024 6 15 * msPerDay)

/-- The sort key realized by `jsCompare`: the parsed time of a timed
occurrence (unparseable nonempty times count as 0, matching the
comparator's `|| 0`), and a sentinel `1440` — later than any valid
time — for occurrences with no time. -/
def timeKey (e : CalEvent) : Nat :=
  if hasTime e then (DateUtils.parseTime (e.time.getD "")).getD 0 else 1440

/-- A successfully parsed time is under 24h. -/
theorem parseTime_lt (t : String) (v : Nat)
    (h : DateUtils.parseTime t = some v) : v < 1440 := by
  unfold DateUtils.parseTime at h
  split_ifs at h
  split at h
  · exact absurd h (by simp)
  · split_ifs at h <;> simp at h <;> omega

/-- A timed occurrence's key is under the no-time sentinel. -/
theorem timeKey_lt_of_hasTime (e : CalEvent) (h : hasTime e = true) :
    timeKey e < 1440 := by
  unfold timeKey
  rw [if_pos h]
  cases hp : DateUtils.parseTime (e.time.getD "") with
  | none => simp
  | some v => simpa using parseTime_lt _ v hp

/-- The comparator orders exactly by `timeKey`. -/
theorem jsCompare_lt_iff (a b : CalEvent) :
    jsCompare a b < 0 ↔ timeKey a < timeKey b := by
  have hA : hasTime a = true → (DateUtils.parseTime (a.time.getD "")).getD 0 < 1440 := by
    intro h
    have := timeKey_lt_of_hasTime a h
    unfold timeKey at this
    rwa [if_pos h] at this
  have hB : hasTime b = true → (DateUtils.parseTime (b.time.getD "")).getD 0 < 1440 := by
    intro h
    have := timeKey_lt_of_hasTime b h
    unfold timeKey at this
    rwa [if_pos h] at this
  unfold jsCompare timeKey
  by_cases ha : hasTime a = true <;> by_cases hb : hasTime b = true
  · have h1 : ¬ (¬ hasTime a = true ∧ ¬ hasTime b = true) := fun hx => hx.1 ha
    have h2 : ¬ ¬ hasTime a = true := fun hx => hx ha
    have h3 : ¬ ¬ hasTime b = true := fun hx => hx hb
    rw [if_neg h1, if_neg h2, if_neg h3, if_pos ha, if_pos hb]
    omega
  · have h1 : ¬ (¬ hasTime a = true ∧ ¬ hasTime b = true) := fun hx => hx.1 ha
    have h2 : ¬ ¬ hasTime a = true := fun hx => hx ha
    rw [if_neg h1, if_neg h2, if_pos hb, if_pos ha, if_neg hb]
    have := hA ha
    omega
  · have h1 : ¬ (¬ hasTime a = true ∧ ¬ hasTime b = true) := fun hx => hx.2 hb
    rw [if_neg h1, if_pos ha, if_neg ha, if_pos hb]
    have := hB hb
    omega
  · rw [if_pos ⟨ha, hb⟩, if_neg ha, if_neg hb]
    omega

/-- Membership in a `sortInsert` result. -/
theorem mem_sortInsert (x a : CalEvent) :
    ∀ l : List CalEvent, a ∈ sortInsert x l ↔ a = x ∨ a ∈ l := by
  intro l
  induction l with
  | nil => simp [sortInsert]
  | cons y ys ih =>
    simp only [sortInsert]
    split <;> simp [ih] <;> tauto

/-- Membership in the sorted list. -/
theorem mem_jsSortEvents (a : CalEvent) :
    ∀ l : List CalEvent, a ∈ jsSortEvents l ↔ a ∈ l := by
  intro l
  induction l with
  | nil => simp [jsSortEvents]
  | cons y ys ih =>
    simp only [jsSortEvents, mem_sortInsert, ih, List.mem_cons]

/-- Insertion preserves sortedness by `timeKey`. -/
theorem sortInsert_pairwise (x : CalEvent) :
    ∀ l : List CalEvent, l.Pairwise (fun a b => timeKey a ≤ timeKey b) →
    (sortInsert x l).Pairwise (fun a b => timeKey a ≤ timeKey b) := by
  intro l
  induction l with
  | nil => intro _; simp [sortInsert]
  | cons y ys ih =>
    intro hl
    rw [List.pairwise_cons] at hl
    simp only [sortInsert]
    split
    · rename_i hc
      rw [List.pairwise_cons]
      constructor
      · intro b hb
        rcases (mem_sortInsert x b ys).mp hb with hbe | hb
        · rw [hbe]
          exact le_of_lt ((jsCompare_lt_iff y x).mp hc)
        · exact hl.1 b hb
      · exact ih hl.2
    · rename_i hc
      rw [List.pairwise_cons]
      have hxy : timeKey x ≤ timeKey y := by
        have := (jsCompare_lt_iff y x).not.mp hc
        omega
      constructor
      · intro b hb
        rcases List.mem_cons.mp hb with rfl | hb
        · exact hxy
        · exact le_trans hxy (hl.1 b hb)
      · rw [List.pairwise_cons]
        exact ⟨hl.1, hl.2⟩

/-- The sorted list is sorted by `timeKey`. -/
theorem jsSortEvents_pairwise :
    ∀ l : List CalEvent,
      (jsSortEvents l).Pairwise fun a b => timeKey a ≤ timeKey b := by
  intro l
  induction l with
  | nil => simp [jsSortEvents]
  | cons y ys ih => exact sortInsert_pairwise y (jsSortEvents ys) ih

/-- Stability of insertion: for each key value, insertion contributes the
new element in front of the (strictly later) equal-key elements. -/
theorem filter_sortInsert (x : CalEvent) (k : Nat) :
    ∀ l : List CalEvent,
      (sortInsert x l).filter (fun e => timeKey e = k) =
        (if timeKey x = k then [x] else []) ++ l.filter fun e => timeKey e = k := by
  intro l
  induction l with
  | nil => simp [sortInsert, List.filter_singleton]
  | cons y ys ih =>
    simp only [sortInsert]
    split
    · rename_i hc
      have hlt : timeKey y < timeKey x := (jsCompare_lt_iff y x).mp hc
      rw [List.filter_cons, List.filter_cons]
      by_cases hy : timeKey y = k
      · have hx : ¬ timeKey x = k := by omega
        simp [hy, hx, ih]
      · simp [hy, ih]
    · rw [List.filter_cons]
      by_cases hx : timeKey x = k
      · simp [hx, List.filter_cons]
      · simp [hx, List.filter_cons]

/-- Stability of the sort: for each key value, the equal-key subsequence
is exactly the original one. -/
theorem filter_jsSortEvents (k : Nat) :
    ∀ l : List CalEvent,
      (jsSortEvents l).filter (fun e => timeKey e = k) =
        l.filter fun e => timeKey e = k := by
  intro l
  induction l with
  | nil => rfl
  | cons y ys ih =>
    simp only [jsSortEvents, filter_sortInsert, ih, List.filter_cons]
    by_cases hy : timeKey y = k
    · simp [hy]
    · simp [hy]

/-- C8: for every date and events map, when every present time field
parses, `getDayEvents` returns the stored occurrences sorted ascending
by their `parseTime` value (`timeKey` agrees with `parseTime` on timed
occurrences), with every no-time occurrence (sentinel key 1440) after
all timed ones (keys < 1440), and with the relative order among
occurrences of equal key — in particular among equal times and among
no-time occurrences — identical to the stored order (stable sort). -/
theorem claim_C8_day_sorting (date : Int) (m : EventIndex)
    (hp : ∀ e ∈ (mapGet m (DateUtils.toDateString date)).getD [],
      ∀ t, e.time = some t → t ≠ "" → (DateUtils.parseTime t).isSome = true) :
    ((getDayEvents date m).1.Pairwise fun a b => timeKey a ≤ timeKey b) ∧
    (∀ e ∈ (getDayEvents date m).1, hasTime e = true → timeKey e < 1440) ∧
    (∀ e ∈ (getDayEvents date m).1, hasTime e = false → timeKey e = 1440) ∧
    (∀ e ∈ (getDayEvents date m).1, ∀ t, e.time = some t → t ≠ "" →
      DateUtils.parseTime t = some (timeKey e)) ∧
    (∀ k : Nat, (getDayEvents date m).1.filter (fun e => timeKey e = k) =
      ((mapGet m (DateUtils.toDateString date)).getD []).filter fun e => timeKey e = k) := by
  refine ⟨jsSortEvents_pairwise _, fun e _ he => timeKey_lt_of_hasTime e he,
    fun e _ he => by simp [timeKey, he], fun e hmem t ht hne => ?_,
    fun k => filter_jsSortEvents k _⟩
  have hmem' : e ∈ (mapGet m (DateUtils.toDateString date)).getD [] :=
    (mem_jsSortEvents e _).mp hmem
  have hsome := hp e hmem' t ht hne
  obtain ⟨v, hv⟩ := Option.isSome_iff_exists.mp hsome
  have hht : hasTime e = true := by simp [hasTime, ht, hne]
  simp [timeKey, hht, ht, hv]

/-- C8 witness: a concrete two-entry day (a timed and an untimed
occurrence) with parseable time. -/
theorem claim_C8_day_sorting_witness :
    (((getDayEvents (daysFromCivil 2025 1 6 * msPerDay) idxC5).1.Pairwise
        fun a b => timeKey a ≤ timeKey b) ∧
      (∀ e ∈ (getDayEvents (daysFromCivil 2025 1 6 * msPerDay) idxC5).1,
        hasTime e = true → timeKey e < 1440) ∧
      (∀ e ∈ (getDayEvents (daysFromCivil 2025 1 6 * msPerDay) idxC5).1,
        hasTime e = false → timeKey e = 1440) ∧
      (∀ e ∈ (getDayEvents (daysFromCivil 2025 1 6 * msPerDay) idxC5).1,
        ∀ t, e.time = some t → t ≠ "" →
          DateUtils.parseTime t = some (timeKey e)) ∧
      (∀ k : Nat,
        (getDayEvents (daysFromCivil 2025 1 6 * msPerDay) idxC5).1.filter
            (fun e => timeKey e = k) =
          ((mapGet idxC5
            (DateUtils.toDateString (daysFromCivil 2025 1 6 * msPerDay))).getD []).filter
            fun e => timeKey e = k)) := by
  apply claim_C8_day_sorting
  decide
